import Mathlib

/-!
A shallow embedding of the jarvis-voice-interface front end.

Two state machines are modelled from the TypeScript source:

* the PIN Access Gate (`PinGate` together with `SecurityAnimation` and the
  `Index` page that owns the `open` prop), and
* the Voice Phase Controller (`useJarvisVoiceLoop`, the revision that has the
  `idle` phase, the `micEnabled` prop and the `sendText` action).

Asynchronous suspension points of the source (timers, the fetch await, the
speech-synthesis utterance, the recognition callbacks) are modelled as
discrete events consumed by a step function; every synchronous run of code
between two suspension points becomes one Lean function on the state.
-/

namespace Jarvis

/-- Status of the PIN access gate: `useState<"idle" | "denied" | "passed">`. -/
inductive GateStatus where
  | idle
  | denied
  | passed
deriving DecidableEq

/-- Local state of the `PinGate` component: the entered digits, the status,
the `animating` flag, plus `cooldownPending`, which records that `deny` has
scheduled its 650 ms reset timeout. -/
structure GateState where
  digits : List Char
  status : GateStatus
  animating : Bool
  cooldownPending : Bool
deriving DecidableEq

/-- Fresh `PinGate` state, as initialised by its `useState` hooks. -/
def initGate : GateState :=
  { digits := [], status := .idle, animating := false, cooldownPending := false }

/-- The gate together with its caller (the `Index` page): `authCount` counts
invocations of the `onAuthorized` callback and `pinAuthorized` mirrors the
page state that drives the gate `open` prop (`open = !pinAuthorized`). -/
structure GateSystem where
  gate : GateState
  authCount : Nat
  pinAuthorized : Bool
deriving DecidableEq

/-- Initial composed state: gate mounted, nobody authorised yet. -/
def initGateSystem : GateSystem :=
  { gate := initGate, authCount := 0, pinAuthorized := false }

/-- The hardcoded access code of `PinGate`. -/
def REQUIRED_PIN : String := "223366"

/-- Discrete events of the gate: keypad taps, the `deny` cool-down timeout,
completion of the security animation (which invokes `onAuthorized`), and the
unmount that follows once `Index` flips the `open` prop to false.  `clear`
covers both the CLEAR keypad button and the Reset button, whose handlers are
identical (`reset`, guarded by `animating`). -/
inductive GateEvent where
  | press (d : Char)
  | backspace
  | clear
  | cooldownFire
  | animComplete
  | close
deriving DecidableEq

/-- `tryValidateIfComplete`: runs on the digit list produced by `addDigit`;
a 6-digit buffer is validated immediately, shorter buffers are left alone.
`deny` sets `denied` and schedules the 650 ms reset (here: `cooldownPending`). -/
def tryValidateIfComplete (next : List Char) (g : GateState) : GateState :=
  if next.length ≠ 6 then g
  else if String.mk next = REQUIRED_PIN then
    { g with status := .passed, animating := true }
  else
    { g with status := .denied, cooldownPending := true }

/-- `addDigit`: ignored while animating or when 6 digits are already present;
otherwise appends and validates the new buffer (the queued microtask runs
before any further user event, so it is executed here synchronously). -/
def addDigit (d : Char) (g : GateState) : GateState :=
  if g.animating then g
  else if 6 ≤ g.digits.length then g
  else tryValidateIfComplete (g.digits ++ [d]) { g with digits := g.digits ++ [d] }

/-- One event of the gate system.  `close` models the unmount of `PinGate`
after authorisation: `AnimatePresence` removes the component and React
discards its `useState` cells, so any later mount starts from `initGate`. -/
def gateStep (e : GateEvent) (s : GateSystem) : GateSystem :=
  match e with
  | .press d => { s with gate := addDigit d s.gate }
  | .backspace =>
      if s.gate.animating then s
      else { s with gate := { s.gate with digits := s.gate.digits.dropLast, status := .idle } }
  | .clear =>
      if s.gate.animating then s
      else { s with gate := { s.gate with digits := [], status := .idle } }
  | .cooldownFire =>
      if s.gate.cooldownPending then
        { s with gate :=
          { s.gate with digits := [], status := .idle, cooldownPending := false } }
      else s
  | .animComplete =>
      if s.gate.animating then
        { s with gate := { s.gate with animating := false },
                 authCount := s.authCount + 1,
                 pinAuthorized := true }
      else s
  | .close =>
      if s.pinAuthorized then { s with gate := initGate } else s

/-- Run the gate over a sequence of events. -/
def runGate (tr : List GateEvent) (s : GateSystem) : GateSystem :=
  tr.foldl (fun a e => gateStep e a) s

/-- Keypad taps for a digit sequence. -/
def pressList (ds : List Char) : List GateEvent :=
  ds.map GateEvent.press

/-- JavaScript `String.prototype.trim`: strip leading and trailing
whitespace.  Defined structurally over the character list so that it
evaluates inside the kernel. -/
def jsTrim (s : String) : String :=
  String.mk (((s.data.dropWhile Char.isWhitespace).reverse.dropWhile Char.isWhitespace).reverse)

/-- `JarvisRole` of `useJarvisVoiceLoop`. -/
inductive JarvisRole where
  | user
  | assistant
deriving DecidableEq

/-- `JarvisMessage`: `ts` is the `Date.now()` reading at creation. -/
structure JarvisMessage where
  id : String
  role : JarvisRole
  content : String
  ts : Nat
deriving DecidableEq

/-- `JarvisPhase` of the revision with the `idle` phase. -/
inductive JarvisPhase where
  | locked
  | booting
  | idle
  | listening
  | thinking
  | speaking
  | error
deriving DecidableEq

/-- `JarvisError`: a human-readable title and an optional detail. -/
structure JarvisError where
  title : String
  detail : Option String
deriving DecidableEq

/-- One reply request: `id` identifies its `AbortController`
(`thinkingAbortRef` holds the id of the most recent one), `aborted` records
that `abort()` was invoked on it, `resolved` that its `fetch` has settled. -/
structure Request where
  id : Nat
  text : String
  aborted : Bool
  resolved : Bool
deriving DecidableEq

/-- A request is in flight iff it was neither aborted nor has settled. -/
def isPendingReq (r : Request) : Bool :=
  !r.aborted && !r.resolved

/-- State of `useJarvisVoiceLoop`: the `useState` cells (`phase`,
`micActive`, `error`, `messages`), the refs (`lastTranscript`,
`speakingRef`, `micEnabledRef`, and the request bookkeeping standing for
`thinkingAbortRef`), flags for the scheduled timers, the environment
capabilities, and a monotone clock standing for `Date.now()`.  `recActive`
records that a recognition instance with live handlers exists
(`recognitionRef` with non-null callbacks). -/
structure LoopState where
  phase : JarvisPhase
  micActive : Bool
  error : Option JarvisError
  messages : List JarvisMessage
  lastTranscript : String
  recActive : Bool
  speakingRef : Bool
  requests : List Request
  curReqId : Option Nat
  nextReqId : Nat
  micEnabledRef : Bool
  started : Bool
  supportsRec : Bool
  ttsSupported : Bool
  rearmPending : Bool
  placeholderPending : Bool
  utterancePending : Bool
  bootPending : Bool
  now : Nat
  nonce : Nat
deriving DecidableEq

/-- Initial hook state: `JarvisCore` starts with `started = false` (phase
`locked`) and `micEnabled` initially `true`.  The two capability flags are
fixed per session by the environment. -/
def initLoop (sr tts : Bool) : LoopState :=
  { phase := .locked
    micActive := false
    error := none
    messages := []
    lastTranscript := ""
    recActive := false
    speakingRef := false
    requests := []
    curReqId := none
    nextReqId := 0
    micEnabledRef := true
    started := false
    supportsRec := sr
    ttsSupported := tts
    rearmPending := false
    placeholderPending := false
    utterancePending := false
    bootPending := false
    now := 0
    nonce := 0 }

/-- Message id: the source concatenates `Date.now()` and a random suffix;
the suffix is modelled by a per-session nonce. -/
def mkId (now nonce : Nat) : String :=
  toString now ++ "-" ++ toString nonce

/-- `pushMessage`: appends one message stamped with the current clock. -/
def pushMessage (role : JarvisRole) (content : String) (s : LoopState) : LoopState :=
  { s with
    messages := s.messages ++ [{ id := mkId s.now s.nonce, role := role,
                                 content := content, ts := s.now }]
    nonce := s.nonce + 1 }

/-- `stopListeningHard`: `setMicActive(false)`, null all recognition
handlers and abort the recognition instance. -/
def stopListeningHard (s : LoopState) : LoopState :=
  { s with micActive := false, recActive := false }

/-- `setError(...)` followed by `setPhase("error")`. -/
def setErrState (title : String) (detail : Option String) (s : LoopState) : LoopState :=
  { s with error := some { title := title, detail := detail }, phase := .error }

/-- Synchronous head of `speak`: force-stop capture, enter `speaking`, then
either schedule the 900 ms placeholder timer (no `speechSynthesis`) or
cancel queued utterances and hand the text to synthesis. -/
def speakStart (s : LoopState) : LoopState :=
  if (stopListeningHard { s with phase := .speaking }).ttsSupported then
    { stopListeningHard { s with phase := .speaking } with utterancePending := true }
  else
    { stopListeningHard { s with phase := .speaking } with placeholderPending := true }

/-- `thinkingAbortRef.current?.abort()`: mark the request referenced by the
current abort handle, if any, as aborted. -/
def abortIfCur (cur : Option Nat) (l : List Request) : List Request :=
  match cur with
  | some i => l.map (fun r => if r.id = i then { r with aborted := true } else r)
  | none => l

/-- Synchronous head of `callBackend`: force-stop capture, enter `thinking`,
create a fresh `AbortController`, invoke `abort()` on the previous one
(`thinkingAbortRef.current?.abort()`), then store the new controller. -/
def issueRequest (text : String) (s : LoopState) : LoopState :=
  { stopListeningHard { s with phase := .thinking } with
    requests :=
      (abortIfCur s.curReqId s.requests
       ++ [{ id := s.nextReqId, text := text, aborted := false, resolved := false }])
    curReqId := some s.nextReqId
    nextReqId := s.nextReqId + 1 }

/-- `Response.ok` of the Fetch API: status in the 2xx range. -/
def respOk (status : Nat) : Bool :=
  200 ≤ status && status < 300

/-- Outcome of one `fetch` exchange as the environment delivers it: either a
transport-level rejection or a response with status, body text and an
optional parsed `reply` field. -/
inductive FetchOutcome where
  | transportError (msg : String)
  | response (status : Nat) (body : String) (reply : Option String)
deriving DecidableEq

/-- The try-block of `callBackend` after the awaits: a non-ok response
throws the body text (or `Request failed (status)` when empty), a missing or
whitespace-only `reply` throws `Backend returned an empty reply.`, otherwise
the trimmed reply is the success value. -/
def fetchOutcomeResult (o : FetchOutcome) : Except String String :=
  match o with
  | .transportError msg => .error msg
  | .response status body reply =>
      if respOk status then
        if jsTrim (reply.getD "") = "" then .error "Backend returned an empty reply."
        else .ok (jsTrim (reply.getD ""))
      else .error (if body = "" then "Request failed (" ++ toString status ++ ")" else body)

/-- The fixed text appended to the error detail by `callBackend`. -/
def expectedNote : String :=
  "\n\nExpected backend response: \x7b reply: string \x7d. Configure VITE_JARVIS_API_URL to your API endpoint."

/-- Continuation of `callBackend` once its fetch settles: the catch block on
any failure, otherwise append the assistant message and start speaking. -/
def resolveFetch (o : FetchOutcome) (s : LoopState) : LoopState :=
  match fetchOutcomeResult o with
  | .error msg => setErrState "Connection / response error" (some (msg ++ expectedNote)) s
  | .ok reply => speakStart (pushMessage .assistant reply s)

/-- `startListening`, with the microphone-permission outcome and the
`rec.start()` outcome supplied by the environment.  In this revision the
`rec.start()` catch block hits a stale `setMicEnabled` reference, so the
exception escapes before any state update: state is left with the handlers
attached but the recognition never running. -/
def startListening (perm ok : Bool) (s : LoopState) : LoopState :=
  if s.supportsRec = false then
    setErrState "SpeechRecognition not supported"
      (some "This browser does not support the Web Speech API SpeechRecognition interface. Use Chrome on Android/Desktop.") s
  else if s.phase ≠ .listening then s
  else if s.speakingRef then s
  else if perm = false then
    setErrState "Microphone permission denied"
      (some "Please allow microphone access to use hands-free voice mode. On Android Chrome: site settings, microphone, allow.") s
  else
    { s with recActive := true, lastTranscript := "" }

/-- `sendText`: trims, ignores empty input, otherwise appends the user
message and issues the backend request. -/
def sendTextFn (text : String) (s : LoopState) : LoopState :=
  if jsTrim text = "" then s
  else issueRequest (jsTrim text) (pushMessage .user (jsTrim text) s)

/-- `retry`: clear the error and re-enter `listening` or `idle` according to
the mic-enabled flag. -/
def retryFn (s : LoopState) : LoopState :=
  { s with error := none, phase := if s.micEnabledRef then .listening else .idle }

/-- Discrete events of the voice loop: prop changes, timers firing,
recognition callbacks, the fetch settling, synthesis callbacks, the public
actions, and unmount. -/
inductive Event where
  | setStarted (b : Bool)
  | bootDone
  | setMicEnabled (b : Bool)
  | armDone (perm ok : Bool)
  | recStart
  | recResult (raw : String)
  | recError (name msg : String)
  | recEnd
  | rearmDone (perm ok : Bool)
  | fetchDone (id : Nat) (o : FetchOutcome)
  | placeholderDone
  | uttStart
  | uttEnd
  | sendText (text : String)
  | retry
  | unmount
deriving DecidableEq

/-- `rec.onend`: mic off, the capture session is over; an empty trimmed
transcript re-arms capture via the 450 ms timer when still in `listening`
with the mic enabled; otherwise the transcript becomes a user message and a
backend request. -/
def recEndStep (s : LoopState) : LoopState :=
  if s.recActive then
    if jsTrim s.lastTranscript = "" then
      if s.phase = .listening ∧ s.micEnabledRef then
        { s with recActive := false, micActive := false, rearmPending := true }
      else
        { s with recActive := false, micActive := false }
    else
      issueRequest (jsTrim s.lastTranscript)
        (pushMessage .user (jsTrim s.lastTranscript)
          { s with recActive := false, micActive := false })
  else s

/-- The fetch of request `id` settles.  A request settles at most once; a
request whose controller was aborted can only settle with the abort
rejection, which the catch block of `callBackend` handles like any other
failure. -/
def fetchDoneStep (id : Nat) (o : FetchOutcome) (s : LoopState) : LoopState :=
  if s.requests.any (fun r => r.id = id && !r.resolved) then
    resolveFetch
      (if s.requests.any (fun r => r.id = id && r.aborted) then
        .transportError "The user aborted a request." else o)
      { s with requests :=
          (s.requests.map (fun r => if r.id = id then { r with resolved := true } else r)) }
  else s

/-- One event of the voice loop. -/
def stepE (e : Event) (s : LoopState) : LoopState :=
  match e with
  | .setStarted b =>
      if b then { s with started := true, error := none, phase := .booting, bootPending := true }
      else { s with started := false, phase := .locked, bootPending := false }
  | .bootDone =>
      if s.bootPending then
        { s with bootPending := false,
                 phase := if s.micEnabledRef then .listening else .idle }
      else s
  | .setMicEnabled b =>
      if b then
        { s with micEnabledRef := true,
                 phase := if s.phase = .idle then .listening else s.phase }
      else
        { stopListeningHard { s with micEnabledRef := false } with
          phase :=
            if s.phase = .thinking ∨ s.phase = .speaking ∨ s.phase = .error then s.phase
            else if s.started then .idle else .locked }
  | .armDone perm ok =>
      if s.started ∧ s.micEnabledRef ∧ s.phase = .listening then startListening perm ok s
      else s
  | .recStart => if s.recActive then { s with micActive := true } else s
  | .recResult raw => if s.recActive then { s with lastTranscript := jsTrim raw } else s
  | .recError nm msg =>
      if s.recActive then
        setErrState "Voice input error" (some (nm ++ ": " ++ msg)) { s with micActive := false }
      else s
  | .recEnd => recEndStep s
  | .rearmDone perm ok =>
      if s.rearmPending then startListening perm ok { s with rearmPending := false } else s
  | .fetchDone id o => fetchDoneStep id o s
  | .placeholderDone =>
      if s.placeholderPending then
        { s with placeholderPending := false,
                 phase := if s.micEnabledRef then .listening else .idle }
      else s
  | .uttStart =>
      if s.utterancePending then stopListeningHard { s with speakingRef := true } else s
  | .uttEnd =>
      if s.utterancePending then
        { s with speakingRef := false, utterancePending := false,
                 phase := if s.micEnabledRef then .listening else .idle }
      else s
  | .sendText text => sendTextFn text s
  | .retry => retryFn s
  | .unmount =>
      stopListeningHard
        { s with
          requests := abortIfCur s.curReqId s.requests
          utterancePending := false }

/-- One timed event: `Date.now()` advances by `dt` before the event runs. -/
def stepT (s : LoopState) (te : Nat × Event) : LoopState :=
  stepE te.2 { s with now := s.now + te.1 }

/-- Run the loop over a sequence of timed events. -/
def run (tr : List (Nat × Event)) (s : LoopState) : LoopState :=
  tr.foldl stepT s

/-- How many of the three mutually exclusive interaction phases a phase
value occupies. -/
def exclusiveCount (p : JarvisPhase) : Nat :=
  (if p = .listening then 1 else 0) +
  (if p = .thinking then 1 else 0) +
  (if p = .speaking then 1 else 0)

/-- The failure condition of the spec for a reply-request outcome: transport
error, non-2xx status, or a reply that is empty after trimming. -/
def fetchFails (o : FetchOutcome) : Prop :=
  match o with
  | .transportError _ => True
  | .response status _ reply => respOk status = false ∨ jsTrim (reply.getD "") = ""

instance (o : FetchOutcome) : Decidable (fetchFails o) := by
  unfold fetchFails
  exact match o with
  | .transportError _ => inferInstanceAs (Decidable True)
  | .response _ _ _ => inferInstanceAs (Decidable (_ ∨ _))

/-- Number of in-flight reply requests. -/
def pendingCount (s : LoopState) : Nat :=
  (s.requests.filter isPendingReq).length

/-- A concrete reachable-shaped state: listening with an active capture
session, used to instantiate hypotheses at a concrete input. -/
def listenState : LoopState :=
  { initLoop true true with phase := JarvisPhase.listening, recActive := true }

/-- The request-bookkeeping view of the state: the request list,
`thinkingAbortRef`, and the id counter. -/
def reqView (s : LoopState) : List Request × Option Nat × Nat :=
  (s.requests, s.curReqId, s.nextReqId)

/-- Request invariant: every in-flight request is the one referenced by
`thinkingAbortRef`, request ids are distinct, and all ids are below the
fresh-id counter. -/
def ReqInv (s : LoopState) : Prop :=
  (∀ r ∈ s.requests, isPendingReq r = true → s.curReqId = some r.id) ∧
  (s.requests.map Request.id).Nodup ∧
  (∀ r ∈ s.requests, r.id < s.nextReqId)

/-- Effect of one event on the conversation: the clock is untouched and the
message list is either left alone or extended by exactly one message stamped
with the current clock. -/
def MsgStep (s s' : LoopState) : Prop :=
  s'.now = s.now ∧
  (s'.messages = s.messages ∨
    ∃ m : JarvisMessage, s'.messages = s.messages ++ [m] ∧ m.ts = s.now)

/-- Conversation invariant: timestamps are non-decreasing in list order and
never ahead of the clock. -/
def MsgInv (s : LoopState) : Prop :=
  List.Chain' (fun a b => a.ts ≤ b.ts) s.messages ∧
  ∀ m ∈ s.messages, m.ts ≤ s.now

theorem runGate_append (tr₁ tr₂ : List GateEvent) (s : GateSystem) :
    runGate (tr₁ ++ tr₂) s = runGate tr₂ (runGate tr₁ s) := by
  simp [runGate, List.foldl_append]

theorem pressList_append (xs ys : List Char) :
    pressList (xs ++ ys) = pressList xs ++ pressList ys := by
  simp [pressList]

/-- While fewer than six digits are accumulating, each tap only appends to
the buffer: no validation fires, the status stays put. -/
theorem runGate_press_accum (ds : List Char) (s : GateSystem)
    (ha : s.gate.animating = false)
    (hlen : s.gate.digits.length + ds.length ≤ 5) :
    runGate (pressList ds) s =
      { s with gate := { s.gate with digits := s.gate.digits ++ ds } } := by
  induction ds generalizing s with
  | nil => simp [runGate, pressList]
  | cons d ds ih =>
    simp only [List.length_cons] at hlen
    have h6 : ¬ 6 ≤ s.gate.digits.length := by omega
    have h5 : s.gate.digits.length ≠ 5 := by omega
    have hstep : gateStep (GateEvent.press d) s =
        { s with gate := { s.gate with digits := s.gate.digits ++ [d] } } := by
      simp [gateStep, addDigit, ha, h6, tryValidateIfComplete, h5]
    have hind := ih { s with gate := { s.gate with digits := s.gate.digits ++ [d] } }
      (by simpa using ha)
      (by simp only [List.length_append, List.length_cons, List.length_nil]; omega)
    calc runGate (pressList (d :: ds)) s
        = runGate (pressList ds) (gateStep (GateEvent.press d) s) := by
          simp [pressList, runGate]
      _ = _ := by rw [hstep, hind]; simp

/-- Entering exactly six digits from the initial state validates them
immediately: match gives `passed` with the confirmation animation running,
mismatch gives `denied` with the 650 ms reset scheduled. -/
theorem runGate_six (ds : List Char) (h : ds.length = 6) :
    runGate (pressList ds) initGateSystem =
      (if String.mk ds = REQUIRED_PIN then
        { gate := { digits := ds, status := .passed, animating := true, cooldownPending := false },
          authCount := 0, pinAuthorized := false }
       else
        { gate := { digits := ds, status := .denied, animating := false, cooldownPending := true },
          authCount := 0, pinAuthorized := false }) := by
  have hne : ds ≠ [] := by intro h0; rw [h0] at h; simp at h
  have hsplit : ds.dropLast ++ [ds.getLast hne] = ds := List.dropLast_append_getLast hne
  have hlen5 : ds.dropLast.length = 5 := by
    rw [List.length_dropLast, h]
  have hmid : runGate (pressList ds.dropLast) initGateSystem =
      { initGateSystem with gate := { initGateSystem.gate with digits := ds.dropLast } } := by
    have := runGate_press_accum ds.dropLast initGateSystem (by rfl)
      (by simp [initGateSystem, initGate, hlen5])
    simpa [initGateSystem, initGate] using this
  have hrun : runGate (pressList ds) initGateSystem =
      gateStep (GateEvent.press (ds.getLast hne)) (runGate (pressList ds.dropLast) initGateSystem) := by
    conv_lhs => rw [← hsplit]
    rw [pressList_append, runGate_append]
    simp [pressList, runGate]
  rw [hrun, hmid]
  rcases eq_or_ne (String.mk ds) REQUIRED_PIN with hpin | hpin
  · rw [if_pos hpin]
    simp [gateStep, addDigit, initGateSystem, initGate, tryValidateIfComplete,
      hsplit, hlen5, h, hpin]
  · rw [if_neg hpin]
    simp [gateStep, addDigit, initGateSystem, initGate, tryValidateIfComplete,
      hsplit, hlen5, h, hpin]

/-- C3: entering fewer than six digits leaves the Access Gate status `idle`;
entering exactly six digits resolves the status to `denied` or `passed`, and
in both cases the digit buffer is empty after the resolution completes (the
650 ms cool-down timeout for `denied`; the security animation, the
authorization signal and the ensuing unmount for `passed`). -/
theorem accessGate_resolution (ds : List Char) :
    (ds.length < 6 →
      (runGate (pressList ds) initGateSystem).gate.status = GateStatus.idle) ∧
    (ds.length = 6 →
      ((runGate (pressList ds) initGateSystem).gate.status = GateStatus.denied ∨
       (runGate (pressList ds) initGateSystem).gate.status = GateStatus.passed) ∧
      ((runGate (pressList ds) initGateSystem).gate.status = GateStatus.denied →
        (gateStep GateEvent.cooldownFire
          (runGate (pressList ds) initGateSystem)).gate.digits = []) ∧
      ((runGate (pressList ds) initGateSystem).gate.status = GateStatus.passed →
        (gateStep GateEvent.close
          (gateStep GateEvent.animComplete
            (runGate (pressList ds) initGateSystem))).gate.digits = [])) := by
  constructor
  · intro hlt
    have := runGate_press_accum ds initGateSystem (by rfl)
      (by simp [initGateSystem, initGate]; omega)
    rw [this]
    rfl
  · intro h6
    rw [runGate_six ds h6]
    rcases eq_or_ne (String.mk ds) REQUIRED_PIN with hpin | hpin
    · rw [if_pos hpin]
      refine ⟨Or.inr rfl, ?_, ?_⟩
      · intro hcontra
        simp at hcontra
      · intro _
        simp [gateStep, initGate]
    · rw [if_neg hpin]
      refine ⟨Or.inl rfl, ?_, ?_⟩
      · intro _
        simp [gateStep]
      · intro hcontra
        simp at hcontra

/-- Witness for C3: a three-digit entry stays `idle`; the six-digit entry
1,2,3,4,5,6 resolves to `denied` and the cool-down empties the buffer. -/
theorem accessGate_resolution_witness :
    ((['1', '2', '3'] : List Char).length < 6 ∧
      (runGate (pressList ['1', '2', '3']) initGateSystem).gate.status = GateStatus.idle) ∧
    ((['1', '2', '3', '4', '5', '6'] : List Char).length = 6 ∧
      ((runGate (pressList ['1', '2', '3', '4', '5', '6']) initGateSystem).gate.status
          = GateStatus.denied ∨
       (runGate (pressList ['1', '2', '3', '4', '5', '6']) initGateSystem).gate.status
          = GateStatus.passed)) :=
  ⟨⟨by decide, (accessGate_resolution ['1', '2', '3']).1 (by decide)⟩,
   ⟨by decide, ((accessGate_resolution ['1', '2', '3', '4', '5', '6']).2 (by decide)).1⟩⟩

/-- C5: entering the stored code 2,2,3,3,6,6 makes the gate status `passed`,
and once the confirmation animation completes the authorization callback has
fired exactly once; a stray further completion event does not fire it
again. -/
theorem accessGate_correct_pin_authorizes_once :
    (runGate (pressList ['2', '2', '3', '3', '6', '6']) initGateSystem).gate.status
        = GateStatus.passed ∧
    (runGate (pressList ['2', '2', '3', '3', '6', '6'] ++ [GateEvent.animComplete])
        initGateSystem).authCount = 1 ∧
    (runGate (pressList ['2', '2', '3', '3', '6', '6']
        ++ [GateEvent.animComplete, GateEvent.animComplete]) initGateSystem).authCount = 1 := by
  decide

/-- C1: over every event sequence the Voice Phase Controller holds a single
`JarvisPhase` value, so it occupies at most one of listening, thinking and
speaking, and exactly one phase is active at any time. -/
theorem phase_mutual_exclusion (tr : List (Nat × Event)) (sr tts : Bool) :
    exclusiveCount (run tr (initLoop sr tts)).phase ≤ 1 ∧
    ∃! p, (run tr (initLoop sr tts)).phase = p := by
  refine ⟨?_, (run tr (initLoop sr tts)).phase, rfl, fun q hq => hq.symm⟩
  cases hp : (run tr (initLoop sr tts)).phase <;> simp [exclusiveCount]

/-- C2: whenever the reply request resolves as a failure — transport error,
non-2xx status, or a reply empty after trimming — the controller enters the
`error` phase carrying the `Connection / response error` title, and the
message list is exactly what it was before the request was issued. -/
theorem reply_failure_uniform_error (s : LoopState) (text : String) (o : FetchOutcome)
    (h : fetchFails o) :
    (resolveFetch o (issueRequest text s)).phase = JarvisPhase.error ∧
    (resolveFetch o (issueRequest text s)).error.map JarvisError.title
      = some "Connection / response error" ∧
    (resolveFetch o (issueRequest text s)).messages = s.messages := by
  have hfail : ∃ msg, fetchOutcomeResult o = .error msg := by
    cases o with
    | transportError msg => exact ⟨msg, rfl⟩
    | response status body reply =>
      have h' : respOk status = false ∨ jsTrim (reply.getD "") = "" := h
      by_cases hok : respOk status = true
      · have hempty : jsTrim (reply.getD "") = "" := by
          rcases h' with hst | hempty
          · rw [hok] at hst; cases hst
          · exact hempty
        exact ⟨"Backend returned an empty reply.", by simp [fetchOutcomeResult, hok, hempty]⟩
      · have hok' : respOk status = false := by
          cases hv : respOk status
          · rfl
          · exact absurd hv hok
        exact ⟨if body = "" then "Request failed (" ++ toString status ++ ")" else body,
          by simp [fetchOutcomeResult, hok']⟩
  rcases hfail with ⟨msg, hmsg⟩
  simp [resolveFetch, hmsg, setErrState, issueRequest, stopListeningHard]

/-- Witness for C2: an HTTP 500 response with body text drives the
controller to the `error` phase and leaves the messages untouched. -/
theorem reply_failure_uniform_error_witness :
    fetchFails (FetchOutcome.response 500 "boom" none) ∧
    ((resolveFetch (FetchOutcome.response 500 "boom" none)
        (issueRequest "hi" (initLoop true true))).phase = JarvisPhase.error ∧
     (resolveFetch (FetchOutcome.response 500 "boom" none)
        (issueRequest "hi" (initLoop true true))).error.map JarvisError.title
        = some "Connection / response error" ∧
     (resolveFetch (FetchOutcome.response 500 "boom" none)
        (issueRequest "hi" (initLoop true true))).messages = (initLoop true true).messages) :=
  ⟨by decide, reply_failure_uniform_error (initLoop true true) "hi" _ (by decide)⟩

/-- C10: `sendText` on an empty or whitespace-only string is a complete
no-op — the whole controller state, in particular phase, error and messages,
is unchanged and no request is issued. -/
theorem sendText_blank_noop (s : LoopState) (text : String) (h : jsTrim text = "") :
    sendTextFn text s = s := by
  simp [sendTextFn, h]

/-- Witness for C10: sending three spaces changes nothing. -/
theorem sendText_blank_noop_witness :
    jsTrim "   " = "" ∧ sendTextFn "   " (initLoop true true) = initLoop true true :=
  ⟨by decide, sendText_blank_noop (initLoop true true) "   " (by decide)⟩

/-- C8: `retry` from `listening` or `idle` with no prior error is a no-op:
it re-enters the phase dictated by the mic-enabled flag, keeps the error
cleared and the messages untouched — and when the current phase already is
the one dictated by the flag the state is completely unchanged; moreover
`retry` twice is always the same as `retry` once. -/
theorem retry_idempotent_noop (s : LoopState) :
    (s.error = none → (s.phase = JarvisPhase.listening ∨ s.phase = JarvisPhase.idle) →
      ((retryFn s).phase
          = (if s.micEnabledRef then JarvisPhase.listening else JarvisPhase.idle) ∧
       (retryFn s).error = none ∧
       (retryFn s).messages = s.messages ∧
       (s.micEnabledRef = true → s.phase = JarvisPhase.listening → retryFn s = s) ∧
       (s.micEnabledRef = false → s.phase = JarvisPhase.idle → retryFn s = s))) ∧
    retryFn (retryFn s) = retryFn s := by
  constructor
  · intro he _
    refine ⟨rfl, rfl, rfl, ?_, ?_⟩
    · intro hm hp
      have hph : (if s.micEnabledRef then JarvisPhase.listening else JarvisPhase.idle)
          = s.phase := by simp [hm, hp]
      simp only [retryFn]
      rw [hph, ← he]
    · intro hm hp
      have hph : (if s.micEnabledRef then JarvisPhase.listening else JarvisPhase.idle)
          = s.phase := by simp [hm, hp]
      simp only [retryFn]
      rw [hph, ← he]
  · simp [retryFn]

/-- Witness for C8: `retry` in `listening` with the mic enabled and no error
leaves the state exactly as it is. -/
theorem retry_idempotent_noop_witness :
    ({ initLoop true true with phase := JarvisPhase.listening } : LoopState).error = none ∧
    ((retryFn { initLoop true true with phase := JarvisPhase.listening }).phase
        = (if ({ initLoop true true with phase := JarvisPhase.listening } : LoopState).micEnabledRef
           then JarvisPhase.listening else JarvisPhase.idle) ∧
     (retryFn { initLoop true true with phase := JarvisPhase.listening }).error = none ∧
     (retryFn { initLoop true true with phase := JarvisPhase.listening }).messages
        = ({ initLoop true true with phase := JarvisPhase.listening } : LoopState).messages ∧
     (({ initLoop true true with phase := JarvisPhase.listening } : LoopState).micEnabledRef = true →
        ({ initLoop true true with phase := JarvisPhase.listening } : LoopState).phase
          = JarvisPhase.listening →
        retryFn { initLoop true true with phase := JarvisPhase.listening }
          = { initLoop true true with phase := JarvisPhase.listening }) ∧
     (({ initLoop true true with phase := JarvisPhase.listening } : LoopState).micEnabledRef = false →
        ({ initLoop true true with phase := JarvisPhase.listening } : LoopState).phase
          = JarvisPhase.idle →
        retryFn { initLoop true true with phase := JarvisPhase.listening }
          = { initLoop true true with phase := JarvisPhase.listening })) ∧
    retryFn (retryFn { initLoop true true with phase := JarvisPhase.listening })
      = retryFn { initLoop true true with phase := JarvisPhase.listening } :=
  ⟨rfl,
   (retry_idempotent_noop { initLoop true true with phase := JarvisPhase.listening }).1
     rfl (Or.inl rfl),
   (retry_idempotent_noop { initLoop true true with phase := JarvisPhase.listening }).2⟩

/-- C6: a successful reply that is non-empty after trimming, arriving while
speech output is unsupported, appends exactly the assistant message and
moves the phase to `speaking`; the placeholder timer then advances to
`listening` when the mic is enabled and to `idle` when it is disabled, so
the cycle completes. -/
theorem speech_unsupported_cycle (s : LoopState) (status : Nat) (body reply : String)
    (hts : s.ttsSupported = false)
    (hok : respOk status = true)
    (hr : jsTrim reply ≠ "") :
    (resolveFetch (FetchOutcome.response status body (some reply)) s).messages
      = s.messages ++ [{ id := mkId s.now s.nonce, role := JarvisRole.assistant,
                         content := jsTrim reply, ts := s.now }] ∧
    (resolveFetch (FetchOutcome.response status body (some reply)) s).phase
      = JarvisPhase.speaking ∧
    (stepE Event.placeholderDone
        (resolveFetch (FetchOutcome.response status body (some reply)) s)).phase
      = (if s.micEnabledRef then JarvisPhase.listening else JarvisPhase.idle) := by
  have hres : fetchOutcomeResult (FetchOutcome.response status body (some reply))
      = .ok (jsTrim reply) := by
    simp [fetchOutcomeResult, hok, hr]
  simp [resolveFetch, hres, speakStart, pushMessage, stopListeningHard, hts, stepE]

/-- Witness for C6: the reply `Lights are on.` with the mic enabled and no
speech synthesis runs the full speak-then-listen cycle. -/
theorem speech_unsupported_cycle_witness :
    (initLoop true false).ttsSupported = false ∧
    respOk 200 = true ∧
    jsTrim "Lights are on." ≠ "" ∧
    ((resolveFetch (FetchOutcome.response 200 "" (some "Lights are on."))
        (initLoop true false)).messages
      = (initLoop true false).messages
        ++ [{ id := mkId (initLoop true false).now (initLoop true false).nonce,
              role := JarvisRole.assistant,
              content := jsTrim "Lights are on.", ts := (initLoop true false).now }] ∧
     (resolveFetch (FetchOutcome.response 200 "" (some "Lights are on."))
        (initLoop true false)).phase = JarvisPhase.speaking ∧
     (stepE Event.placeholderDone
        (resolveFetch (FetchOutcome.response 200 "" (some "Lights are on."))
          (initLoop true false))).phase
      = (if (initLoop true false).micEnabledRef then JarvisPhase.listening
         else JarvisPhase.idle)) :=
  ⟨rfl, rfl, by decide,
   speech_unsupported_cycle (initLoop true false) 200 "" "Lights are on."
     rfl rfl (by decide)⟩

/-- C7: a capture session ending with a whitespace-only transcript while in
`listening` with the mic enabled keeps the phase `listening`, appends no
message, and schedules the 450 ms re-arm timer, which restarts capture. -/
theorem empty_transcript_rearm (s : LoopState)
    (hrec : s.recActive = true) (ht : jsTrim s.lastTranscript = "")
    (hp : s.phase = JarvisPhase.listening) (hm : s.micEnabledRef = true)
    (hsr : s.supportsRec = true) (hsp : s.speakingRef = false) :
    (stepE Event.recEnd s).phase = JarvisPhase.listening ∧
    (stepE Event.recEnd s).messages = s.messages ∧
    (stepE Event.recEnd s).rearmPending = true ∧
    (stepE (Event.rearmDone true true) (stepE Event.recEnd s)).recActive = true ∧
    (stepE (Event.rearmDone true true) (stepE Event.recEnd s)).phase
      = JarvisPhase.listening ∧
    (stepE (Event.rearmDone true true) (stepE Event.recEnd s)).messages = s.messages := by
  simp [stepE, recEndStep, hrec, ht, hp, hm, startListening, hsr, hsp]

/-- Witness for C7: a listening state with an active capture and an empty
transcript re-arms without touching the conversation. -/
theorem empty_transcript_rearm_witness :
    listenState.recActive = true ∧
    jsTrim listenState.lastTranscript = "" ∧
    ((stepE Event.recEnd listenState).phase = JarvisPhase.listening ∧
     (stepE Event.recEnd listenState).messages = listenState.messages ∧
     (stepE Event.recEnd listenState).rearmPending = true ∧
     (stepE (Event.rearmDone true true) (stepE Event.recEnd listenState)).recActive = true ∧
     (stepE (Event.rearmDone true true) (stepE Event.recEnd listenState)).phase
      = JarvisPhase.listening ∧
     (stepE (Event.rearmDone true true) (stepE Event.recEnd listenState)).messages
      = listenState.messages) :=
  ⟨rfl, by decide,
   empty_transcript_rearm listenState rfl (by decide) rfl rfl rfl rfl⟩

theorem reqInv_of_view (s s' : LoopState) (h : reqView s' = reqView s)
    (hi : ReqInv s) : ReqInv s' := by
  have h1 : s'.requests = s.requests := congrArg Prod.fst h
  have h2 : s'.curReqId = s.curReqId := congrArg (fun x => x.2.1) h
  have h3 : s'.nextReqId = s.nextReqId := congrArg (fun x => x.2.2) h
  unfold ReqInv
  rw [h1, h2, h3]
  exact hi

theorem reqView_speakStart (s : LoopState) : reqView (speakStart s) = reqView s := by
  unfold speakStart
  split <;> rfl

theorem reqView_startListening (p q : Bool) (s : LoopState) :
    reqView (startListening p q s) = reqView s := by
  unfold startListening setErrState
  split_ifs <;> rfl

theorem reqView_resolveFetch (o : FetchOutcome) (s : LoopState) :
    reqView (resolveFetch o s) = reqView s := by
  unfold resolveFetch
  cases fetchOutcomeResult o with
  | error msg => rfl
  | ok reply =>
    show reqView (speakStart (pushMessage .assistant reply s)) = reqView s
    rw [reqView_speakStart]
    rfl

/-- Mapping an id-preserving, pending-shrinking function over the request
list preserves the request invariant. -/
theorem reqInv_mapShrink (s : LoopState) (f : Request → Request)
    (hid : ∀ r, (f r).id = r.id)
    (hpend : ∀ r, isPendingReq (f r) = true → f r = r)
    (h : ReqInv s) :
    ReqInv { s with requests := s.requests.map f } := by
  obtain ⟨hcur, hnd, hlt⟩ := h
  refine ⟨?_, ?_, ?_⟩
  · intro r hr hp
    rcases List.mem_map.mp hr with ⟨r₀, hr₀, heq⟩
    have hfr : f r₀ = r₀ := hpend r₀ (by rw [heq]; exact hp)
    show s.curReqId = some r.id
    rw [← heq, hfr]
    exact hcur r₀ hr₀ (by rw [← hfr, heq]; exact hp)
  · show ((s.requests.map f).map Request.id).Nodup
    rw [List.map_map]
    have hcomp : (Request.id ∘ f) = Request.id := funext fun r => hid r
    rw [hcomp]
    exact hnd
  · intro r hr
    rcases List.mem_map.mp hr with ⟨r₀, hr₀, heq⟩
    show r.id < s.nextReqId
    rw [← heq, hid]
    exact hlt r₀ hr₀

theorem abortIfCur_map_id (c : Option Nat) (l : List Request) :
    (abortIfCur c l).map Request.id = l.map Request.id := by
  cases c with
  | none => rfl
  | some i =>
    show ((l.map fun r => if r.id = i then { r with aborted := true } else r).map
      Request.id) = _
    rw [List.map_map]
    have hcomp : (Request.id ∘ fun r => if r.id = i then { r with aborted := true } else r)
        = Request.id := by
      funext r
      show (if r.id = i then { r with aborted := true } else r).id = r.id
      split <;> rfl
    rw [hcomp]

/-- After `thinkingAbortRef.current?.abort()` no previously stored request
is still in flight, provided the in-flight one was the referenced one. -/
theorem abortIfCur_not_pending (c : Option Nat) (l : List Request)
    (hcur : ∀ r ∈ l, isPendingReq r = true → c = some r.id) :
    ∀ r ∈ abortIfCur c l, isPendingReq r = false := by
  intro r hr
  cases c with
  | none =>
    cases hv : isPendingReq r
    · rfl
    · have := hcur r hr hv
      cases this
  | some i =>
    simp only [abortIfCur] at hr
    rcases List.mem_map.mp hr with ⟨r₀, hr₀, heq⟩
    by_cases hido : r₀.id = i
    · rw [← heq]
      rw [if_pos hido]
      rfl
    · cases hv : isPendingReq r
      · rfl
      · rw [← heq] at hv
        rw [if_neg hido] at hv
        have := hcur r₀ hr₀ hv
        exact absurd (Option.some.inj this).symm hido

theorem abortIfCur_mem_id (c : Option Nat) (l : List Request) (r : Request)
    (hr : r ∈ abortIfCur c l) : r.id ∈ l.map Request.id := by
  have h := List.mem_map_of_mem Request.id hr
  rwa [abortIfCur_map_id] at h

/-- Issuing a request preserves the invariant: the previous in-flight one is
aborted, the new one gets the fresh id and becomes the referenced one. -/
theorem reqInv_issueRequest (text : String) (s : LoopState) (h : ReqInv s) :
    ReqInv (issueRequest text s) := by
  obtain ⟨hcur, hnd, hlt⟩ := h
  have hnp := abortIfCur_not_pending s.curReqId s.requests hcur
  refine ⟨?_, ?_, ?_⟩
  · intro r hr hp
    show some s.nextReqId = some r.id
    have hr' : r ∈ abortIfCur s.curReqId s.requests
        ++ ([{ id := s.nextReqId, text := text, aborted := false, resolved := false }]
            : List Request) := hr
    rcases List.mem_append.mp hr' with hmem | hmem
    · rw [hnp r hmem] at hp
      cases hp
    · have hfresh : r = { id := s.nextReqId, text := text, aborted := false, resolved := false } := by
        simpa using hmem
      rw [hfresh]
  · show ((abortIfCur s.curReqId s.requests
      ++ ([{ id := s.nextReqId, text := text, aborted := false, resolved := false }]
          : List Request)).map Request.id).Nodup
    rw [List.map_append, abortIfCur_map_id, List.nodup_append]
    refine ⟨hnd, List.nodup_singleton _, ?_⟩
    intro x hx hx'
    rcases List.mem_map.mp hx with ⟨r₀, hr₀, heq⟩
    have hxlt : x < s.nextReqId := heq ▸ hlt r₀ hr₀
    have hxeq : x = s.nextReqId := by simpa using hx'
    omega
  · intro r hr
    show r.id < s.nextReqId + 1
    have hr' : r ∈ abortIfCur s.curReqId s.requests
        ++ ([{ id := s.nextReqId, text := text, aborted := false, resolved := false }]
            : List Request) := hr
    rcases List.mem_append.mp hr' with hmem | hmem
    · have hmem' := abortIfCur_mem_id _ _ r hmem
      rcases List.mem_map.mp hmem' with ⟨r₀, hr₀, heq⟩
      have := hlt r₀ hr₀
      omega
    · have hfresh : r = { id := s.nextReqId, text := text, aborted := false, resolved := false } := by
        simpa using hmem
      rw [hfresh]
      show s.nextReqId < s.nextReqId + 1
      omega

/-- Every event preserves the request invariant. -/
theorem reqInv_stepE (e : Event) (s : LoopState) (h : ReqInv s) : ReqInv (stepE e s) := by
  cases e with
  | setStarted b =>
    cases b
    · exact reqInv_of_view s _ rfl h
    · exact reqInv_of_view s _ rfl h
  | bootDone =>
    refine reqInv_of_view s _ ?_ h
    simp only [stepE]
    split <;> rfl
  | setMicEnabled b =>
    refine reqInv_of_view s _ ?_ h
    cases b
    · rfl
    · rfl
  | armDone p q =>
    refine reqInv_of_view s _ ?_ h
    simp only [stepE]
    split
    · rw [reqView_startListening]
    · rfl
  | recStart =>
    refine reqInv_of_view s _ ?_ h
    simp only [stepE]
    split <;> rfl
  | recResult raw =>
    refine reqInv_of_view s _ ?_ h
    simp only [stepE]
    split <;> rfl
  | recError nm msg =>
    refine reqInv_of_view s _ ?_ h
    simp only [stepE, setErrState]
    split <;> rfl
  | recEnd =>
    show ReqInv (recEndStep s)
    unfold recEndStep
    split
    · split
      · split
        · exact reqInv_of_view s _ rfl h
        · exact reqInv_of_view s _ rfl h
      · exact reqInv_issueRequest _ _ (reqInv_of_view s _ rfl h)
    · exact h
  | rearmDone p q =>
    refine reqInv_of_view s _ ?_ h
    simp only [stepE]
    split
    · rw [reqView_startListening]
      rfl
    · rfl
  | fetchDone id o =>
    show ReqInv (fetchDoneStep id o s)
    unfold fetchDoneStep
    split
    · refine reqInv_of_view _ _ (reqView_resolveFetch _ _) ?_
      exact reqInv_mapShrink s
        (fun r => if r.id = id then { r with resolved := true } else r)
        (fun r => by dsimp only; split <;> rfl)
        (fun r hp => by
          dsimp only at hp ⊢
          by_cases hr : r.id = id
          · rw [if_pos hr] at hp
            simp [isPendingReq] at hp
          · rw [if_neg hr])
        h
    · exact h
  | placeholderDone =>
    refine reqInv_of_view s _ ?_ h
    simp only [stepE]
    split <;> rfl
  | uttStart =>
    refine reqInv_of_view s _ ?_ h
    simp only [stepE]
    split <;> rfl
  | uttEnd =>
    refine reqInv_of_view s _ ?_ h
    simp only [stepE]
    split <;> rfl
  | sendText text =>
    show ReqInv (sendTextFn text s)
    unfold sendTextFn
    split
    · exact h
    · exact reqInv_issueRequest _ _ (reqInv_of_view s _ rfl h)
  | retry => exact reqInv_of_view s _ rfl h
  | unmount =>
    have hm : ReqInv { s with requests := abortIfCur s.curReqId s.requests } := by
      obtain ⟨hcur, hnd, hlt⟩ := h
      have hnp := abortIfCur_not_pending s.curReqId s.requests hcur
      refine ⟨?_, ?_, ?_⟩
      · intro r hr hp
        rw [hnp r hr] at hp
        cases hp
      · show ((abortIfCur s.curReqId s.requests).map Request.id).Nodup
        rw [abortIfCur_map_id]
        exact hnd
      · intro r hr
        show r.id < s.nextReqId
        have hmem := abortIfCur_mem_id _ _ r hr
        rcases List.mem_map.mp hmem with ⟨r₀, hr₀, heq⟩
        have := hlt r₀ hr₀
        omega
    exact reqInv_of_view _ _ rfl hm

theorem reqInv_run (tr : List (Nat × Event)) (s : LoopState) (h : ReqInv s) :
    ReqInv (run tr s) := by
  induction tr generalizing s with
  | nil => exact h
  | cons te tr ih =>
    show ReqInv (run tr (stepT s te))
    exact ih _ (reqInv_stepE te.2 _ (reqInv_of_view s _ rfl h))

/-- Among requests that all share the referenced id, with distinct ids, at
most one can be in flight. -/
theorem filter_pending_le_one (l : List Request) (c : Nat)
    (hid : ∀ r ∈ l, isPendingReq r = true → r.id = c)
    (hnd : (l.map Request.id).Nodup) :
    (l.filter isPendingReq).length ≤ 1 := by
  induction l with
  | nil => simp
  | cons r l ih =>
    simp only [List.map_cons, List.nodup_cons] at hnd
    obtain ⟨hnotin, hnd⟩ := hnd
    by_cases hp : isPendingReq r = true
    · have hrc : r.id = c := hid r (by simp) hp
      have hnone : l.filter isPendingReq = [] := by
        rw [List.filter_eq_nil_iff]
        intro x hx hxp
        have hxc : x.id = c := hid x (List.mem_cons_of_mem _ hx) hxp
        refine hnotin ?_
        rw [hrc, ← hxc]
        exact List.mem_map_of_mem Request.id hx
      simp [List.filter_cons, hp, hnone]
    · have hp' : isPendingReq r = false := by
        cases hv : isPendingReq r
        · rfl
        · exact absurd hv hp
      simp only [List.filter_cons, hp', Bool.false_eq_true, if_false]
      exact ih (fun x hx hxp => hid x (List.mem_cons_of_mem _ hx) hxp) hnd

theorem reqInv_pending_le_one (s : LoopState) (h : ReqInv s) : pendingCount s ≤ 1 := by
  obtain ⟨hcur, hnd, _⟩ := h
  cases hc : s.curReqId with
  | none =>
    have hnone : s.requests.filter isPendingReq = [] := by
      rw [List.filter_eq_nil_iff]
      intro r hr hp
      have := hcur r hr hp
      rw [hc] at this
      cases this
    unfold pendingCount
    rw [hnone]
    simp
  | some c =>
    exact filter_pending_le_one s.requests c
      (fun r hr hp => by
        have := hcur r hr hp
        rw [hc] at this
        exact (Option.some.inj this).symm)
      hnd

/-- After a new request is issued, no request other than the newly stored
one can be in flight: everything older was aborted or had settled. -/
theorem issue_only_new_pending (text : String) (s : LoopState) (h : ReqInv s) :
    (issueRequest text s).requests.filter
      (fun r => isPendingReq r && (r.id != s.nextReqId)) = [] := by
  obtain ⟨hcur, _, _⟩ := h
  have hnp := abortIfCur_not_pending s.curReqId s.requests hcur
  rw [List.filter_eq_nil_iff]
  intro r hr
  have hr' : r ∈ abortIfCur s.curReqId s.requests
      ++ ([{ id := s.nextReqId, text := text, aborted := false, resolved := false }]
          : List Request) := hr
  rcases List.mem_append.mp hr' with hmem | hmem
  · simp [hnp r hmem]
  · have hfresh : r = { id := s.nextReqId, text := text, aborted := false, resolved := false } := by
      simpa using hmem
    rw [hfresh]
    simp

/-- C4: over every event trace at most one reply request is in flight, and
issuing a new request leaves no in-flight request other than the newly
stored one — the previous controller is aborted before the new one is
stored, last-call-wins. -/
theorem single_pending_request (tr : List (Nat × Event)) (sr tts : Bool) (text : String) :
    pendingCount (run tr (initLoop sr tts)) ≤ 1 ∧
    (issueRequest text (run tr (initLoop sr tts))).requests.filter
      (fun r => isPendingReq r && (r.id != (run tr (initLoop sr tts)).nextReqId)) = [] := by
  have h : ReqInv (run tr (initLoop sr tts)) :=
    reqInv_run tr (initLoop sr tts) (by refine ⟨?_, ?_, ?_⟩ <;> simp [initLoop])
  exact ⟨reqInv_pending_le_one _ h, issue_only_new_pending text _ h⟩

theorem speakStart_msg (s : LoopState) :
    (speakStart s).messages = s.messages ∧ (speakStart s).now = s.now := by
  unfold speakStart
  split <;> exact ⟨rfl, rfl⟩

theorem startListening_msg (p q : Bool) (s : LoopState) :
    (startListening p q s).messages = s.messages ∧ (startListening p q s).now = s.now := by
  unfold startListening setErrState
  split_ifs <;> exact ⟨rfl, rfl⟩

theorem resolveFetch_msg (o : FetchOutcome) (s : LoopState) :
    MsgStep s (resolveFetch o s) := by
  unfold resolveFetch
  cases h : fetchOutcomeResult o with
  | error msg => exact ⟨rfl, Or.inl rfl⟩
  | ok reply =>
    refine ⟨((speakStart_msg _).2).trans rfl,
      Or.inr ⟨{ id := mkId s.now s.nonce, role := .assistant, content := reply, ts := s.now },
        ((speakStart_msg _).1).trans rfl, rfl⟩⟩

/-- Every event either leaves the conversation alone or appends exactly one
message stamped with the current clock. -/
theorem msgStep_stepE (e : Event) (s : LoopState) : MsgStep s (stepE e s) := by
  cases e with
  | setStarted b =>
    cases b
    · exact ⟨rfl, Or.inl rfl⟩
    · exact ⟨rfl, Or.inl rfl⟩
  | bootDone =>
    refine ⟨?_, Or.inl ?_⟩ <;> (simp only [stepE]; split <;> rfl)
  | setMicEnabled b =>
    cases b
    · exact ⟨rfl, Or.inl rfl⟩
    · exact ⟨rfl, Or.inl rfl⟩
  | armDone p q =>
    refine ⟨?_, Or.inl ?_⟩
    · simp only [stepE]
      split
      · exact (startListening_msg p q s).2
      · rfl
    · simp only [stepE]
      split
      · exact (startListening_msg p q s).1
      · rfl
  | recStart =>
    refine ⟨?_, Or.inl ?_⟩ <;> (simp only [stepE]; split <;> rfl)
  | recResult raw =>
    refine ⟨?_, Or.inl ?_⟩ <;> (simp only [stepE]; split <;> rfl)
  | recError nm msg =>
    refine ⟨?_, Or.inl ?_⟩ <;> (simp only [stepE, setErrState]; split <;> rfl)
  | recEnd =>
    show MsgStep s (recEndStep s)
    unfold recEndStep
    split
    · split
      · split
        · exact ⟨rfl, Or.inl rfl⟩
        · exact ⟨rfl, Or.inl rfl⟩
      · exact ⟨rfl, Or.inr ⟨{ id := mkId s.now s.nonce, role := .user, content := jsTrim s.lastTranscript, ts := s.now }, rfl, rfl⟩⟩
    · exact ⟨rfl, Or.inl rfl⟩
  | rearmDone p q =>
    refine ⟨?_, Or.inl ?_⟩
    · simp only [stepE]
      split
      · exact (startListening_msg p q _).2
      · rfl
    · simp only [stepE]
      split
      · exact (startListening_msg p q _).1
      · rfl
  | fetchDone id o =>
    show MsgStep s (fetchDoneStep id o s)
    unfold fetchDoneStep
    split
    · exact resolveFetch_msg _ _
    · exact ⟨rfl, Or.inl rfl⟩
  | placeholderDone =>
    refine ⟨?_, Or.inl ?_⟩ <;> (simp only [stepE]; split <;> rfl)
  | uttStart =>
    refine ⟨?_, Or.inl ?_⟩ <;> (simp only [stepE]; split <;> rfl)
  | uttEnd =>
    refine ⟨?_, Or.inl ?_⟩ <;> (simp only [stepE]; split <;> rfl)
  | sendText text =>
    show MsgStep s (sendTextFn text s)
    unfold sendTextFn
    split
    · exact ⟨rfl, Or.inl rfl⟩
    · exact ⟨rfl, Or.inr ⟨{ id := mkId s.now s.nonce, role := .user, content := jsTrim text, ts := s.now }, rfl, rfl⟩⟩
  | retry => exact ⟨rfl, Or.inl rfl⟩
  | unmount => exact ⟨rfl, Or.inl rfl⟩

/-- One timed event preserves the conversation invariant. -/
theorem msgInv_stepT (s : LoopState) (te : Nat × Event) (h : MsgInv s) :
    MsgInv (stepT s te) := by
  obtain ⟨hch, hbd⟩ := h
  obtain ⟨hnow, hmsg⟩ := msgStep_stepE te.2 { s with now := s.now + te.1 }
  rcases hmsg with heq | ⟨m, heq, hts⟩
  · constructor
    · show List.Chain' _ (stepE te.2 { s with now := s.now + te.1 }).messages
      rw [heq]
      exact hch
    · intro x hx
      have hx' : x ∈ s.messages := by
        rw [show (stepT s te).messages
            = (stepE te.2 { s with now := s.now + te.1 }).messages from rfl, heq] at hx
        exact hx
      show x.ts ≤ (stepE te.2 { s with now := s.now + te.1 }).now
      rw [hnow]
      exact le_trans (hbd x hx') (Nat.le_add_right _ _)
  · constructor
    · show List.Chain' _ (stepE te.2 { s with now := s.now + te.1 }).messages
      rw [heq, List.chain'_append]
      refine ⟨hch, List.chain'_singleton m, ?_⟩
      intro a ha b hb
      have hb' : m = b := by simpa using hb
      have ham : a ∈ s.messages := List.mem_of_mem_getLast? ha
      rw [← hb', hts]
      exact le_trans (hbd a ham) (Nat.le_add_right _ _)
    · intro x hx
      have hx' : x ∈ s.messages ++ [m] := by
        rw [show (stepT s te).messages
            = (stepE te.2 { s with now := s.now + te.1 }).messages from rfl, heq] at hx
        exact hx
      show x.ts ≤ (stepE te.2 { s with now := s.now + te.1 }).now
      rw [hnow]
      rcases List.mem_append.mp hx' with hx'' | hx''
      · exact le_trans (hbd x hx'') (Nat.le_add_right _ _)
      · have : x = m := by simpa using hx''
        rw [this, hts]

theorem msgInv_run (tr : List (Nat × Event)) (s : LoopState) (h : MsgInv s) :
    MsgInv (run tr s) := by
  induction tr generalizing s with
  | nil => exact h
  | cons te tr ih => exact ih _ (msgInv_stepT s te h)

/-- One timed event keeps the previous conversation as a prefix and adds at
most one message. -/
theorem stepT_take_len (s : LoopState) (te : Nat × Event) :
    (stepT s te).messages.take s.messages.length = s.messages ∧
    (stepT s te).messages.length ≤ s.messages.length + 1 := by
  obtain ⟨hnow, hmsg⟩ := msgStep_stepE te.2 { s with now := s.now + te.1 }
  rcases hmsg with heq | ⟨m, heq, hts⟩
  · constructor
    · show (stepE te.2 { s with now := s.now + te.1 }).messages.take s.messages.length
        = s.messages
      rw [heq]
      exact List.take_length _
    · show (stepE te.2 { s with now := s.now + te.1 }).messages.length
        ≤ s.messages.length + 1
      rw [heq]
      exact Nat.le_succ _
  · constructor
    · show (stepE te.2 { s with now := s.now + te.1 }).messages.take s.messages.length
        = s.messages
      rw [heq]
      exact List.take_left _ _
    · show (stepE te.2 { s with now := s.now + te.1 }).messages.length
        ≤ s.messages.length + 1
      rw [heq]
      simp

/-- C9: the conversation is append-only — after any further event the old
message list is still a prefix, at most one message was added (and
`pushMessage` adds exactly one, at the end), and timestamps remain
monotonically non-decreasing in list order. -/
theorem messages_append_only (tr : List (Nat × Event)) (te : Nat × Event) (sr tts : Bool) :
    (run (tr ++ [te]) (initLoop sr tts)).messages.take
        (run tr (initLoop sr tts)).messages.length = (run tr (initLoop sr tts)).messages ∧
    (run (tr ++ [te]) (initLoop sr tts)).messages.length
      ≤ (run tr (initLoop sr tts)).messages.length + 1 ∧
    List.Chain' (fun a b => a.ts ≤ b.ts) (run (tr ++ [te]) (initLoop sr tts)).messages ∧
    (∀ (s : LoopState) (role : JarvisRole) (content : String),
      (pushMessage role content s).messages
        = s.messages ++ [{ id := mkId s.now s.nonce, role := role,
                           content := content, ts := s.now }]) := by
  have hinit : MsgInv (initLoop sr tts) := ⟨List.chain'_nil, by simp [initLoop]⟩
  have hrun : run (tr ++ [te]) (initLoop sr tts) = stepT (run tr (initLoop sr tts)) te := by
    simp [run, List.foldl_append]
  refine ⟨?_, ?_, (msgInv_run (tr ++ [te]) (initLoop sr tts) hinit).1,
    fun s role content => rfl⟩
  · rw [hrun]
    exact (stepT_take_len _ te).1
  · rw [hrun]
    exact (stepT_take_len _ te).2

end Jarvis
